import Mathlib

/-!
Verification of the RL-Tutor frontend quiz engine against its specification.

The development shallowly embeds the JavaScript/React source:
- `src/frontend/src/components/WorkspacePanel.jsx` — the quiz workspace
  (state machine over `currentQuestion`, `answers`, `hints`, `results`);
- `src/frontend/src/App.jsx` and `src/unnamed/part_003` (the context-aware
  variant of App.jsx) — the HTTP client functions `generateQuiz`,
  `submitQuiz`, `getHint`;
- `src/frontend/src/utils/latexPreprocess.js` — `preprocessLatex`;
- the backend grading engine, which is not under `src/`, is modelled from
  the spec (section 4.4).

JavaScript objects used as string-keyed maps are embedded as insertion
ordered association lists with distinct keys; JS truthiness on optional
strings is embedded explicitly (`jsTruthy`).
-/

namespace RLTutor

/-- A JSON value as constructed by the client request bodies
(`JSON.stringify` argument shapes). -/
inductive JVal where
  | str (s : String)
  | num (n : Nat)
  | bool (b : Bool)
  | obj (fields : List (String × JVal))

/-- Property read `m[k]` on a JS object embedded as an assoc list. -/
def jsLookup {α : Type} (m : List (String × α)) (k : String) : Option α :=
  (m.find? (fun p => p.1 = k)).map (fun p => p.2)

/-- Property update on a JS object (the spread `...prev` with a computed
key, and plain assignment): the value at an existing key is replaced in
place, a new key is appended at the end. JS object keys are unique, so
replacing the first occurrence is exact. -/
def jsInsert {α : Type} (m : List (String × α)) (k : String) (v : α) :
    List (String × α) :=
  match m with
  | [] => [(k, v)]
  | p :: rest => if p.1 = k then (k, v) :: rest else p :: jsInsert rest k v

/-- JS truthiness of a possibly-absent string: `null`/`undefined` and the
empty string are falsy, every other string is truthy. -/
def jsTruthy : Option String → Bool
  | none => false
  | some s => s ≠ ""

/-! ## Data model (frontend view)

The quiz object held in React state (`setQuiz` in App.jsx): questions as
delivered by `POST quiz/generate`, with answers withheld — a frontend
`Question` carries no `correct_answer` or `explanation` field. -/

/-- A question as delivered to the frontend by `POST quiz/generate`:
`{id, question, options?, difficulty}`. Ids are embedded as strings
(the code normalizes keys with `String(question.id)`). -/
structure Question where
  id : String
  question : String
  options : List String
  difficulty : String
  deriving DecidableEq, Repr

/-- The quiz object stored by `setQuiz` in App.jsx. -/
structure Quiz where
  id : String
  title : String
  topic : String
  questions : List Question
  deriving DecidableEq, Repr

/-- One element of `SubmissionResult.results`:
`{question_id, user_answer, is_correct, correct_answer, explanation}`. -/
structure QuestionResult where
  question_id : String
  user_answer : String
  is_correct : Bool
  correct_answer : String
  explanation : String
  deriving DecidableEq, Repr

/-- The body of a successful `POST quiz/<id>/submit` response:
`{results, correct_count, total_questions, percentage}`. -/
structure SubmissionResult where
  results : List QuestionResult
  correct_count : Nat
  total_questions : Nat
  percentage : Nat
  deriving DecidableEq, Repr

/-! ## WorkspacePanel state machine

`WorkspacePanel.jsx` keeps React state `currentQuestion`, `answers`,
`hints`, `results` (plus the transient `loadingHint` / `isSubmitting`
flags, which only serialize in-flight requests and are dropped in this
sequential embedding). The `quiz` prop and the `reviewMode` prop are fixed
during one run of the machine; the `useEffect` reset on quiz change is the
initial state. -/

/-- The React state of one `WorkspacePanel` run. -/
structure PanelState where
  currentQuestion : Nat
  answers : List (String × String)
  hints : List (String × String)
  results : Option SubmissionResult
  deriving DecidableEq, Repr

/-- The `useEffect` reset when the quiz changes: index 0, empty answers and
hints; in review mode with saved results, `results` is set immediately and
`answers` is repopulated from `reviewResults.results` (the
`savedAnswers[r.question_id] = r.user_answer` loop). -/
def initState (reviewMode : Bool) (reviewResults : Option SubmissionResult) :
    PanelState :=
  match reviewMode, reviewResults with
  | true, some r =>
      { currentQuestion := 0
        answers := r.results.foldl
          (fun m x => jsInsert m x.question_id x.user_answer) []
        hints := []
        results := some r }
  | _, _ =>
      { currentQuestion := 0, answers := [], hints := [], results := none }

/-- Embeds `getAnsweredCount`, the number of keys of the answers object. -/
def getAnsweredCount (s : PanelState) : Nat :=
  s.answers.length

/-- Embeds `getQuestionResult`: gives `null` before a submission result exists,
otherwise `results.results.find(r => String(r.question_id) === String(qId))`. -/
def getQuestionResult (s : PanelState) (qId : String) : Option QuestionResult :=
  match s.results with
  | none => none
  | some r => r.results.find? (fun x => x.question_id = qId)

/-- Embeds `handleSelectAnswer`: returns without writing when `results` is set,
otherwise stores the answer under key `String(question.id)` of the current
question. -/
def handleSelectAnswer (quiz : Quiz) (s : PanelState) (answer : String) :
    PanelState :=
  if s.results.isSome then s
  else
    match quiz.questions[s.currentQuestion]? with
    | none => s
    | some q => { s with answers := jsInsert s.answers q.id answer }

/-- Embeds `handlePrev`: decrements `currentQuestion` only when it is positive. -/
def handlePrev (s : PanelState) : PanelState :=
  if 0 < s.currentQuestion then
    { s with currentQuestion := s.currentQuestion - 1 }
  else s

/-- Embeds `handleNext`: increments `currentQuestion` only when it is below
`totalQuestions - 1`. -/
def handleNext (quiz : Quiz) (s : PanelState) : PanelState :=
  if s.currentQuestion < quiz.questions.length - 1 then
    { s with currentQuestion := s.currentQuestion + 1 }
  else s

/-- A click on question dot `i`; the dots are rendered by
`questions.map((q, idx) => ...)`, so only indices of existing questions
occur. -/
def gotoQuestion (quiz : Quiz) (s : PanelState) (i : Nat) : PanelState :=
  if i < quiz.questions.length then { s with currentQuestion := i } else s

/-- Whether `handleHint` issues a request to `onGetHint`: it returns early
when `hints[question.id]` is truthy (the hint is already cached). -/
def hintRequestIssued (quiz : Quiz) (s : PanelState) : Bool :=
  match quiz.questions[s.currentQuestion]? with
  | none => false
  | some q => !(jsTruthy (jsLookup s.hints q.id))

/-- Embeds `handleHint` with the `onGetHint` response `resp` (`none` embeds the
`null` returned on a failed request): early return when the hint is cached,
and the response is stored only when truthy (`if (hint)`). -/
def handleHint (quiz : Quiz) (s : PanelState) (resp : Option String) :
    PanelState :=
  match quiz.questions[s.currentQuestion]? with
  | none => s
  | some q =>
    if jsTruthy (jsLookup s.hints q.id) then s
    else
      match resp with
      | some h => if h ≠ "" then { s with hints := jsInsert s.hints q.id h } else s
      | none => s

/-- The submit control: rendered only when `!results && !reviewMode` and
disabled while `getAnsweredCount() < totalQuestions` (`isSubmitting` is
transient and dropped). `handleSubmit` is reachable only through this
control. -/
def submitEnabled (quiz : Quiz) (reviewMode : Bool) (s : PanelState) : Bool :=
  !reviewMode && s.results.isNone &&
    !(getAnsweredCount s < quiz.questions.length)

/-- Embeds `handleSubmit` with the `onSubmit` response `resp` (`none` embeds the
`null` returned on a failed submission): guarded by the submit control
being rendered and enabled; on a non-null result it records `results`. -/
def handleSubmit (quiz : Quiz) (reviewMode : Bool) (s : PanelState)
    (resp : Option SubmissionResult) : PanelState :=
  if submitEnabled quiz reviewMode s then
    match resp with
    | some r => { s with results := some r }
    | none => s
  else s

/-- Embeds the attribute disabling every multiple-choice option button once
`results` is set. -/
def optionDisabled (s : PanelState) : Bool :=
  s.results.isSome

/-- Embeds the attribute disabling the short-answer textarea once `results`
is set. -/
def textareaDisabled (s : PanelState) : Bool :=
  s.results.isSome

/-- One user-visible event of a `WorkspacePanel` run with a fixed quiz. -/
inductive PEvent where
  | select (answer : String)
  | prev
  | next
  | goto (i : Nat)
  | hint (resp : Option String)
  | submit (resp : Option SubmissionResult)
  deriving DecidableEq, Repr

/-- The step function of the panel: dispatches an event to its handler. -/
def step (quiz : Quiz) (reviewMode : Bool) (s : PanelState) :
    PEvent → PanelState
  | .select a => handleSelectAnswer quiz s a
  | .prev => handlePrev s
  | .next => handleNext quiz s
  | .goto i => gotoQuestion quiz s i
  | .hint r => handleHint quiz s r
  | .submit r => handleSubmit quiz reviewMode s r

/-- A run of the panel: the fold of the step function over an event list. -/
def run (quiz : Quiz) (reviewMode : Bool) (s : PanelState)
    (events : List PEvent) : PanelState :=
  events.foldl (step quiz reviewMode) s

/-- The states reachable from the reset state of one quiz. -/
inductive Reachable (quiz : Quiz) (reviewMode : Bool)
    (reviewResults : Option SubmissionResult) : PanelState → Prop where
  | init : Reachable quiz reviewMode reviewResults
      (initState reviewMode reviewResults)
  | step : ∀ s e, Reachable quiz reviewMode reviewResults s →
      Reachable quiz reviewMode reviewResults (step quiz reviewMode s e)

/-! ## Rendered grading feedback (claim C4)

After grading, the correct answer shown for the current question comes from
`currentResult` (`getQuestionResult(question?.id)`): in the multiple-choice
branch via `currentResult.correct_answer === optionLetter`, in the
short-answer branch via the `Expected answer` span (shown only when the
answer was wrong); the explanation block renders
`currentResult.explanation` when it is truthy. -/

/-- The correct-answer text the panel reveals for the current question:
`none` when nothing is revealed. -/
def renderedCorrectAnswer (quiz : Quiz) (s : PanelState) : Option String :=
  match quiz.questions[s.currentQuestion]? with
  | none => none
  | some q =>
    match getQuestionResult s q.id with
    | none => none
    | some res =>
      if 0 < q.options.length then some res.correct_answer
      else if res.is_correct then none
      else some res.correct_answer

/-- The explanation text the panel reveals for the current question. -/
def renderedExplanation (quiz : Quiz) (s : PanelState) : Option String :=
  match quiz.questions[s.currentQuestion]? with
  | none => none
  | some q =>
    match getQuestionResult s q.id with
    | none => none
    | some res => if res.explanation ≠ "" then some res.explanation else none

/-! ## Client request bodies (claims C2, C5, C6)

The two App.jsx variants construct the `POST quiz/generate` and
`POST quiz/<id>/submit` request bodies. `src/frontend/src/App.jsx` sends
`{session_id, topic, difficulty, num_questions}`; the context-aware variant
`src/unnamed/part_003` additionally sends `context_based: !topic` and
substitutes the constant topic string when no topic is given. -/

/-- The `POST quiz/generate` body built by `generateQuiz` in
`src/frontend/src/App.jsx`:
`{session_id, topic, difficulty, num_questions}`. -/
def generateQuizBodyApp (sessionId topic difficulty : String)
    (numQuestions : Nat) : List (String × JVal) :=
  [("session_id", .str sessionId),
   ("topic", .str topic),
   ("difficulty", .str difficulty),
   ("num_questions", .num numQuestions)]

/-- The `POST quiz/generate` body built by `generateQuiz` in
`src/unnamed/part_003`: the fields session_id, topic (falling back to the
constant string "conversation context" when the given topic is falsy),
difficulty, num_questions, and context_based (the negated truthiness of the
given topic). -/
def generateQuizBodyCtx (sessionId : String) (topic : Option String)
    (difficulty : String) (numQuestions : Nat) : List (String × JVal) :=
  [("session_id", .str sessionId),
   ("topic", .str (if jsTruthy topic then topic.getD "" else "conversation context")),
   ("difficulty", .str difficulty),
   ("num_questions", .num numQuestions),
   ("context_based", .bool (!jsTruthy topic))]

/-- Embeds the JS array join with a single-space separator, on character
lists: the separator appears between consecutive elements. -/
def joinSpace : List String → List Char
  | [] => []
  | [s] => s.data
  | s :: rest => s.data ++ ' ' :: joinSpace rest

/-- The context synthesis computed by `generateQuiz` in
`src/unnamed/part_003` when no topic is given:
the last 10 messages (embedded by their content strings), joined by single
spaces, truncated to the first 2000 characters. The computed value is bound
to the local variable named conversationContext. -/
def synthesizeContext (messages : List String) : String :=
  String.mk ((joinSpace (messages.drop (messages.length - 10))).take 2000)

/-- The `POST quiz/<id>/submit` body built by `submitQuiz` (identical in
both App.jsx variants): `{answers, time_taken_seconds}`. -/
def submitQuizBody (answers : List (String × String)) (timeTaken : Nat) :
    List (String × JVal) :=
  [("answers", .obj (answers.map (fun p => (p.1, .str p.2)))),
   ("time_taken_seconds", .num timeTaken)]

/-- The value `submitQuiz` returns to its caller: the parsed
`SubmissionResult` on a `response.ok` reply, and `null` when the response
is not ok or the fetch throws (both App.jsx variants fall through to
`return null`). -/
def submitQuizOutcome (response : Except String SubmissionResult) :
    Option SubmissionResult :=
  match response with
  | .ok data => some data
  | .error _ => none

/-! ## preprocessLatex (claim C8)

`src/frontend/src/utils/latexPreprocess.js`. The two global regex
replacements are embedded as a left-to-right scanner: `scanClose c`
locates the first backslash-`c` two-character delimiter (the regex
literal), and `convertSpans` repeatedly replaces the earliest
open-delimiter span up to the nearest close delimiter (the non-greedy
`([\s\S]*?)`), continuing after the replaced span. The scanner is written
with explicit fuel so the embedding stays executable;
`convertSpansFuel_congr` below shows any fuel of at least the input length
computes the same result, so `convertSpans` does not depend on the fuel
choice. -/

/-- Find the first occurrence of the two-character delimiter backslash-`c`:
returns the text before it and the text after it. -/
def scanClose (c : Char) : List Char → Option (List Char × List Char)
  | [] => none
  | [_] => none
  | a :: b :: rest =>
    if a = '\\' ∧ b = c then some ([], rest)
    else
      match scanClose c (b :: rest) with
      | some (pre, post) => some (a :: pre, post)
      | none => none

/-- Fueled span replacement: replace each backslash-`o` … backslash-`c`
span (earliest close) by `wrap ++ inner ++ wrap`, scanning left to
right. -/
def convertSpansFuel (o c : Char) (wrap : List Char) :
    Nat → List Char → List Char
  | 0, s => s
  | fuel + 1, s =>
    match scanClose o s with
    | none => s
    | some (pre, afterOpen) =>
      match scanClose c afterOpen with
      | none => s
      | some (inner, post) =>
        pre ++ wrap ++ inner ++ wrap ++ convertSpansFuel o c wrap fuel post

/-- Span replacement with sufficient fuel (each replacement consumes at
least the four delimiter characters, so `s.length` steps always suffice). -/
def convertSpans (o c : Char) (wrap : List Char) (s : List Char) :
    List Char :=
  convertSpansFuel o c wrap s.length s

/-- The JS argument of `preprocessLatex`: a string, `null`, `undefined`, or
any other non-string value. -/
inductive JSContent where
  | jsStr (s : String)
  | jsNull
  | jsUndefined
  | jsOther
  deriving DecidableEq, Repr

/-- Embeds `preprocessLatex`: returns the argument unchanged unless it is
a non-empty string (the guard rejects falsy and non-string values); otherwise
replaces every backslash-bracket display span by a `$$` span, then every
backslash-parenthesis inline span by a `$` span. -/
def preprocessLatex (content : JSContent) : JSContent :=
  match content with
  | .jsStr s =>
    if s = "" then .jsStr s
    else .jsStr (String.mk (convertSpans '(' ')' ['$']
      (convertSpans '[' ']' ['$', '$'] s.data)))
  | x => x

/-! ## Grading engine (claim C7)

The backend grading engine (`quiz.py`) is not under `src/`; only its
clients are. `grade` below is modelled from the spec, section 4.4:
multiple-choice answers compare option letters case-insensitively;
short answers short-circuit on normalized exact match and otherwise fall
back to a semantic comparison, which is a backend model call and is
therefore a parameter `sem` of the embedding; missing answers grade as
incorrect; `percentage = round(100 * correct_count / total_questions)`;
`InvalidSubmissionError` on a quiz with zero questions or an answers map
referencing an unknown question id. -/

/-- The question type tag of the spec data model. -/
inductive QType where
  | multiple_choice
  | short_answer
  deriving DecidableEq, Repr

/-- Modelled from the spec: a server-side question of a QuizSession, with
`correct_answer` and `explanation` present. -/
structure ServerQuestion where
  id : String
  qtype : QType
  prompt : String
  options : List String
  correct_answer : String
  explanation : String
  deriving DecidableEq, Repr

/-- Modelled from the spec: the server-side QuizSession questions a
submission is graded against. -/
structure ServerQuiz where
  id : String
  questions : List ServerQuestion
  deriving DecidableEq, Repr

/-- The grading error taxonomy relevant to `grade` (spec section 7). -/
inductive GradeError where
  | invalidSubmission
  deriving DecidableEq, Repr

/-- ASCII lowercasing on the character list of a string (the structural
counterpart of the library lowercasing, which is not kernel-reducible). -/
def lowerAscii (s : String) : String :=
  String.mk (s.data.map Char.toLower)

/-- Splits a character list into maximal non-empty words separated by
spaces; the first argument accumulates the current word, reversed. -/
def wordsAux : List Char → List Char → List (List Char)
  | [], acc => if acc.isEmpty then [] else [acc.reverse]
  | c :: rest, acc =>
    if c = ' ' then
      if acc.isEmpty then wordsAux rest [] else acc.reverse :: wordsAux rest []
    else wordsAux rest (c :: acc)

/-- Joins words with single spaces. -/
def joinWords : List (List Char) → List Char
  | [] => []
  | [w] => w
  | w :: ws => w ++ ' ' :: joinWords ws

/-- Modelled from the spec: answer normalization for the short-answer exact
stage — case-folded, punctuation-stripped, whitespace-collapsed. -/
def normalizeAnswer (s : String) : String :=
  String.mk (joinWords (wordsAux
    ((s.data.map Char.toLower).filter
      (fun ch => ch.isAlphanum ∨ ch = ' ')) []))

/-- Modelled from the spec: per-question correctness. `sem` is the
semantic-similarity acceptance test performed by the backend model call. -/
def isCorrectAnswer (sem : String → String → Bool) (q : ServerQuestion)
    (userAnswer : Option String) : Bool :=
  match userAnswer with
  | none => false
  | some a =>
    match q.qtype with
    | .multiple_choice => lowerAscii a = lowerAscii q.correct_answer
    | .short_answer =>
        normalizeAnswer a = normalizeAnswer q.correct_answer ||
          sem a q.correct_answer

/-- Rounds the rational 100 * c / n to the nearest integer, half up. -/
def roundPct (c n : Nat) : Nat :=
  (200 * c + n) / (2 * n)

/-- Modelled from the spec: the per-question outcome list of a graded
submission — every question of the quiz receives a defined outcome, with
missing answers graded as incorrect. -/
def gradeResults (sem : String → String → Bool) (quiz : ServerQuiz)
    (answers : List (String × String)) : List QuestionResult :=
  quiz.questions.map (fun q =>
    { question_id := q.id
      user_answer := (jsLookup answers q.id).getD ""
      is_correct := isCorrectAnswer sem q (jsLookup answers q.id)
      correct_answer := q.correct_answer
      explanation := q.explanation })

/-- Modelled from the spec: the backend GradingEngine `grade(quiz,
answers, time_taken)` of spec section 4.4 is not under `src/` (only its
HTTP clients are), so it is modelled from the spec text. Fails with
`InvalidSubmissionError` on zero questions or an unknown question id in
`answers`; otherwise grades every question (missing answers as incorrect)
and computes the rounded percentage. -/
def grade (sem : String → String → Bool) (quiz : ServerQuiz)
    (answers : List (String × String)) (_timeTaken : Nat) :
    Except GradeError SubmissionResult :=
  if quiz.questions.length = 0 then .error .invalidSubmission
  else if answers.any
      (fun p => !(quiz.questions.any (fun q => q.id = p.1))) then
    .error .invalidSubmission
  else
    .ok { results := gradeResults sem quiz answers
          correct_count := (gradeResults sem quiz answers).countP
            (fun r => r.is_correct)
          total_questions := quiz.questions.length
          percentage := roundPct ((gradeResults sem quiz answers).countP
            (fun r => r.is_correct)) quiz.questions.length }

/-! ## Association-list lemmas -/

theorem jsLookup_nil {α : Type} (k : String) :
    jsLookup ([] : List (String × α)) k = none := rfl

theorem jsLookup_cons {α : Type} (p : String × α) (m : List (String × α))
    (k : String) :
    jsLookup (p :: m) k = if p.1 = k then some p.2 else jsLookup m k := by
  by_cases h : p.1 = k <;> simp [jsLookup, List.find?_cons, h]

theorem jsLookup_isSome_of_mem_keys {α : Type} {m : List (String × α)}
    {k : String} (h : k ∈ m.map Prod.fst) : (jsLookup m k).isSome = true := by
  induction m with
  | nil => simp at h
  | cons p rest ih =>
    rw [jsLookup_cons]
    by_cases hp : p.1 = k
    · simp [hp]
    · simp only [List.map_cons, List.mem_cons] at h
      rcases h with h | h
      · exact absurd h.symm hp
      · simp [hp, ih h]

theorem mem_of_jsLookup_eq_some {α : Type} {m : List (String × α)}
    {k : String} {v : α} (h : jsLookup m k = some v) : (k, v) ∈ m := by
  induction m with
  | nil => simp [jsLookup] at h
  | cons p rest ih =>
    rw [jsLookup_cons] at h
    by_cases hp : p.1 = k
    · rw [if_pos hp] at h
      have hv : p.2 = v := by injection h
      have hpk : p = (k, v) := by
        cases p
        simp only at hp hv
        simp [hp, hv]
      exact hpk ▸ List.mem_cons_self _ _
    · rw [if_neg hp] at h
      exact List.mem_cons_of_mem _ (ih h)

theorem jsLookup_jsInsert_self {α : Type} (m : List (String × α))
    (k : String) (v : α) : jsLookup (jsInsert m k v) k = some v := by
  induction m with
  | nil => simp [jsInsert, jsLookup_cons]
  | cons p rest ih =>
    by_cases hp : p.1 = k
    · simp [jsInsert, hp, jsLookup_cons]
    · simp [jsInsert, hp, jsLookup_cons, ih]

theorem jsLookup_jsInsert_ne {α : Type} (m : List (String × α))
    (k k2 : String) (v : α) (h : k2 ≠ k) :
    jsLookup (jsInsert m k v) k2 = jsLookup m k2 := by
  have hne : ¬ k = k2 := fun hh => h hh.symm
  induction m with
  | nil => simp [jsInsert, jsLookup_cons, hne]
  | cons p rest ih =>
    by_cases hp : p.1 = k
    · have hp2 : ¬ p.1 = k2 := by rw [hp]; exact hne
      simp [jsInsert, hp, jsLookup_cons, hne, hp2]
    · simp [jsInsert, hp, jsLookup_cons, ih]

theorem jsInsert_map_fst {α : Type} (m : List (String × α)) (k : String)
    (v : α) :
    (jsInsert m k v).map Prod.fst =
      if k ∈ m.map Prod.fst then m.map Prod.fst
      else m.map Prod.fst ++ [k] := by
  induction m with
  | nil => simp [jsInsert]
  | cons p rest ih =>
    by_cases hp : p.1 = k
    · simp [jsInsert, hp]
    · have : ¬ k = p.1 := fun hh => hp hh.symm
      simp only [jsInsert, if_neg hp, List.map_cons, List.mem_cons, this,
        false_or, ih]
      by_cases hk : k ∈ rest.map Prod.fst <;> simp [hk]

theorem jsInsert_keys_nodup {α : Type} {m : List (String × α)} {k : String}
    {v : α} (h : (m.map Prod.fst).Nodup) :
    ((jsInsert m k v).map Prod.fst).Nodup := by
  rw [jsInsert_map_fst]
  by_cases hk : k ∈ m.map Prod.fst
  · simpa [hk]
  · simp only [hk, if_neg, ite_false]
    exact h.append (List.nodup_singleton k)
      (fun a ha hb => by simp at hb; exact hk (hb ▸ ha))

theorem mem_jsInsert {α : Type} {m : List (String × α)} {k : String}
    {v : α} {p : String × α} (h : p ∈ jsInsert m k v) :
    p = (k, v) ∨ p ∈ m := by
  induction m with
  | nil => simp [jsInsert] at h; simp [h]
  | cons q rest ih =>
    by_cases hq : q.1 = k
    · simp only [jsInsert, if_pos hq, List.mem_cons] at h
      rcases h with h | h
      · exact Or.inl h
      · exact Or.inr (List.mem_cons_of_mem _ h)
    · simp only [jsInsert, if_neg hq, List.mem_cons] at h
      rcases h with h | h
      · exact Or.inr (h ▸ List.mem_cons_self _ _)
      · rcases ih h with h2 | h2
        · exact Or.inl h2
        · exact Or.inr (List.mem_cons_of_mem _ h2)

theorem jsInsert_length {α : Type} (m : List (String × α)) (k : String)
    (v : α) :
    (jsInsert m k v).length = if k ∈ m.map Prod.fst then m.length
      else m.length + 1 := by
  have h := congrArg List.length (jsInsert_map_fst m k v)
  simp only [List.length_map] at h
  by_cases hk : k ∈ m.map Prod.fst <;> simp_all

/-! ## Field effects of the handlers -/

theorem handleSelectAnswer_hints (quiz : Quiz) (s : PanelState) (a : String) :
    (handleSelectAnswer quiz s a).hints = s.hints := by
  unfold handleSelectAnswer
  split
  · rfl
  · split <;> rfl

theorem handleSelectAnswer_results (quiz : Quiz) (s : PanelState)
    (a : String) : (handleSelectAnswer quiz s a).results = s.results := by
  unfold handleSelectAnswer
  split
  · rfl
  · split <;> rfl

theorem handleSelectAnswer_currentQuestion (quiz : Quiz) (s : PanelState)
    (a : String) :
    (handleSelectAnswer quiz s a).currentQuestion = s.currentQuestion := by
  unfold handleSelectAnswer
  split
  · rfl
  · split <;> rfl

theorem handlePrev_answers (s : PanelState) :
    (handlePrev s).answers = s.answers := by
  unfold handlePrev
  split <;> rfl

theorem handlePrev_hints (s : PanelState) :
    (handlePrev s).hints = s.hints := by
  unfold handlePrev
  split <;> rfl

theorem handlePrev_results (s : PanelState) :
    (handlePrev s).results = s.results := by
  unfold handlePrev
  split <;> rfl

theorem handleNext_answers (quiz : Quiz) (s : PanelState) :
    (handleNext quiz s).answers = s.answers := by
  unfold handleNext
  split <;> rfl

theorem handleNext_hints (quiz : Quiz) (s : PanelState) :
    (handleNext quiz s).hints = s.hints := by
  unfold handleNext
  split <;> rfl

theorem handleNext_results (quiz : Quiz) (s : PanelState) :
    (handleNext quiz s).results = s.results := by
  unfold handleNext
  split <;> rfl

theorem gotoQuestion_answers (quiz : Quiz) (s : PanelState) (i : Nat) :
    (gotoQuestion quiz s i).answers = s.answers := by
  unfold gotoQuestion
  split <;> rfl

theorem gotoQuestion_hints (quiz : Quiz) (s : PanelState) (i : Nat) :
    (gotoQuestion quiz s i).hints = s.hints := by
  unfold gotoQuestion
  split <;> rfl

theorem gotoQuestion_results (quiz : Quiz) (s : PanelState) (i : Nat) :
    (gotoQuestion quiz s i).results = s.results := by
  unfold gotoQuestion
  split <;> rfl

theorem handleHint_answers (quiz : Quiz) (s : PanelState)
    (resp : Option String) : (handleHint quiz s resp).answers = s.answers := by
  unfold handleHint
  split
  · rfl
  · split
    · rfl
    · split
      · split <;> rfl
      · rfl

theorem handleHint_results (quiz : Quiz) (s : PanelState)
    (resp : Option String) : (handleHint quiz s resp).results = s.results := by
  unfold handleHint
  split
  · rfl
  · split
    · rfl
    · split
      · split <;> rfl
      · rfl

theorem handleHint_currentQuestion (quiz : Quiz) (s : PanelState)
    (resp : Option String) :
    (handleHint quiz s resp).currentQuestion = s.currentQuestion := by
  unfold handleHint
  split
  · rfl
  · split
    · rfl
    · split
      · split <;> rfl
      · rfl

theorem handleSubmit_answers (quiz : Quiz) (reviewMode : Bool)
    (s : PanelState) (resp : Option SubmissionResult) :
    (handleSubmit quiz reviewMode s resp).answers = s.answers := by
  unfold handleSubmit
  split
  · split <;> rfl
  · rfl

theorem handleSubmit_hints (quiz : Quiz) (reviewMode : Bool)
    (s : PanelState) (resp : Option SubmissionResult) :
    (handleSubmit quiz reviewMode s resp).hints = s.hints := by
  unfold handleSubmit
  split
  · split <;> rfl
  · rfl

theorem handleSubmit_currentQuestion (quiz : Quiz) (reviewMode : Bool)
    (s : PanelState) (resp : Option SubmissionResult) :
    (handleSubmit quiz reviewMode s resp).currentQuestion =
      s.currentQuestion := by
  unfold handleSubmit
  split
  · split <;> rfl
  · rfl

/-! ## Panel invariants -/

/-- Well-formedness of the answers object for a quiz: its keys are distinct
and every key is the id of a question of the quiz. -/
def answersWF (quiz : Quiz) (ans : List (String × String)) : Prop :=
  (ans.map Prod.fst).Nodup ∧
  ∀ k ∈ ans.map Prod.fst, k ∈ quiz.questions.map Question.id

/-- Well-formedness of the hints object: every cached hint is a non-empty
string (the truthiness guard filters falsy responses before caching). -/
def hintsWF (hs : List (String × String)) : Prop :=
  ∀ p ∈ hs, p.2 ≠ ""

theorem mem_of_getElem?_eq_some {α : Type} {l : List α} {i : Nat} {a : α}
    (h : l[i]? = some a) : a ∈ l := by
  obtain ⟨hi, rfl⟩ := List.getElem?_eq_some.mp h
  exact List.getElem_mem hi

theorem answersWF_jsInsert {quiz : Quiz} {ans : List (String × String)}
    {q : Question} (hq : q ∈ quiz.questions) (h : answersWF quiz ans)
    (a : String) : answersWF quiz (jsInsert ans q.id a) := by
  obtain ⟨hnd, hsub⟩ := h
  have hidmem : q.id ∈ quiz.questions.map Question.id :=
    List.mem_map_of_mem _ hq
  refine ⟨jsInsert_keys_nodup hnd, ?_⟩
  intro k hk
  rw [jsInsert_map_fst] at hk
  by_cases hin : q.id ∈ ans.map Prod.fst
  · rw [if_pos hin] at hk
    exact hsub k hk
  · rw [if_neg hin] at hk
    rcases List.mem_append.mp hk with hk | hk
    · exact hsub k hk
    · simp at hk
      exact hk ▸ hidmem

theorem answersWF_step (quiz : Quiz) (reviewMode : Bool) (s : PanelState)
    (e : PEvent) (h : answersWF quiz s.answers) :
    answersWF quiz (step quiz reviewMode s e).answers := by
  cases e with
  | select a =>
    show answersWF quiz (handleSelectAnswer quiz s a).answers
    unfold handleSelectAnswer
    split
    · exact h
    · split
      · exact h
      · next q hq => exact answersWF_jsInsert (mem_of_getElem?_eq_some hq) h a
  | prev => rw [show step quiz reviewMode s .prev = handlePrev s from rfl,
      handlePrev_answers]; exact h
  | next => rw [show step quiz reviewMode s .next = handleNext quiz s from
      rfl, handleNext_answers]; exact h
  | goto i => rw [show step quiz reviewMode s (.goto i) =
      gotoQuestion quiz s i from rfl, gotoQuestion_answers]; exact h
  | hint r => rw [show step quiz reviewMode s (.hint r) =
      handleHint quiz s r from rfl, handleHint_answers]; exact h
  | submit r => rw [show step quiz reviewMode s (.submit r) =
      handleSubmit quiz reviewMode s r from rfl, handleSubmit_answers]
                exact h

theorem reachable_answersWF (quiz : Quiz) (rr : Option SubmissionResult)
    (s : PanelState) (h : Reachable quiz false rr s) :
    answersWF quiz s.answers := by
  induction h with
  | init => exact ⟨by simp [initState], by simp [initState]⟩
  | step s e _ ih => exact answersWF_step quiz false s e ih

theorem hintsWF_jsInsert {hs : List (String × String)} {k hText : String}
    (hne : hText ≠ "") (h : hintsWF hs) : hintsWF (jsInsert hs k hText) := by
  intro p hp
  rcases mem_jsInsert hp with hp2 | hp2
  · rw [hp2]
    exact hne
  · exact h p hp2

theorem hintsWF_step (quiz : Quiz) (reviewMode : Bool) (s : PanelState)
    (e : PEvent) (h : hintsWF s.hints) :
    hintsWF (step quiz reviewMode s e).hints := by
  cases e with
  | select a => rw [show step quiz reviewMode s (.select a) =
      handleSelectAnswer quiz s a from rfl, handleSelectAnswer_hints]
                exact h
  | prev => rw [show step quiz reviewMode s .prev = handlePrev s from rfl,
      handlePrev_hints]; exact h
  | next => rw [show step quiz reviewMode s .next = handleNext quiz s from
      rfl, handleNext_hints]; exact h
  | goto i => rw [show step quiz reviewMode s (.goto i) =
      gotoQuestion quiz s i from rfl, gotoQuestion_hints]; exact h
  | hint r =>
    show hintsWF (handleHint quiz s r).hints
    unfold handleHint
    split
    · exact h
    · split
      · exact h
      · split
        · next hText =>
            split
            · next hne => exact hintsWF_jsInsert hne h
            · exact h
        · exact h
  | submit r => rw [show step quiz reviewMode s (.submit r) =
      handleSubmit quiz reviewMode s r from rfl, handleSubmit_hints]
                exact h

theorem reachable_hintsWF (quiz : Quiz) (reviewMode : Bool)
    (rr : Option SubmissionResult) (s : PanelState)
    (h : Reachable quiz reviewMode rr s) : hintsWF s.hints := by
  induction h with
  | init =>
    cases reviewMode <;> cases rr <;> simp [initState, hintsWF]
  | step s e _ ih => exact hintsWF_step quiz reviewMode s e ih

/-- A well-formed answers object with at least as many entries as the quiz
has questions contains an entry for every question of the quiz. -/
theorem covered_of_count (quiz : Quiz) (ans : List (String × String))
    (h : answersWF quiz ans) (hlen : quiz.questions.length ≤ ans.length) :
    ∀ q ∈ quiz.questions, (jsLookup ans q.id).isSome = true := by
  obtain ⟨hnd, hsub⟩ := h
  intro q hq
  have hkeysub : (ans.map Prod.fst).toFinset ⊆
      (quiz.questions.map Question.id).toFinset := by
    intro x hx
    rw [List.mem_toFinset] at hx ⊢
    exact hsub x hx
  have hcard1 : (ans.map Prod.fst).toFinset.card = ans.length := by
    rw [List.toFinset_card_of_nodup hnd, List.length_map]
  have hcard2 : (quiz.questions.map Question.id).toFinset.card ≤
      quiz.questions.length := by
    calc (quiz.questions.map Question.id).toFinset.card
        ≤ (quiz.questions.map Question.id).length :=
          List.toFinset_card_le _
      _ = quiz.questions.length := List.length_map _ _
  have heq : (ans.map Prod.fst).toFinset =
      (quiz.questions.map Question.id).toFinset :=
    Finset.eq_of_subset_of_card_le hkeysub (by omega)
  have hqid : q.id ∈ (quiz.questions.map Question.id).toFinset := by
    rw [List.mem_toFinset]
    exact List.mem_map_of_mem _ hq
  rw [← heq, List.mem_toFinset] at hqid
  exact jsLookup_isSome_of_mem_keys hqid

/-- C1: for every active quiz, a submit request is issued only when the
answers map contains an entry for every question of the quiz: the submit
control is enabled only when the answered count reaches the total question
count, and in every reachable panel state this forces an answer entry for
every question, so no partial submission is ever sent. -/
theorem submit_request_covers_every_question (quiz : Quiz)
    (reviewMode : Bool) (rr : Option SubmissionResult) (s : PanelState)
    (h : Reachable quiz reviewMode rr s)
    (he : submitEnabled quiz reviewMode s = true) :
    ∀ q ∈ quiz.questions, (jsLookup s.answers q.id).isSome = true := by
  have hrev : reviewMode = false := by
    cases reviewMode
    · rfl
    · simp [submitEnabled] at he
  subst hrev
  have hwf := reachable_answersWF quiz rr s h
  have hlen : quiz.questions.length ≤ s.answers.length := by
    simp only [submitEnabled, getAnsweredCount, Bool.and_eq_true,
      Bool.not_eq_true', decide_eq_false_iff_not, Nat.not_lt] at he
    exact he.2
  exact covered_of_count quiz s.answers hwf hlen

/-- A fixed sample question used by the concrete witnesses below. -/
def questionW : Question :=
  { id := "q1", question := "What is 2 + 2?",
    options := ["A) 3", "B) 4"], difficulty := "easy" }

/-- A fixed sample quiz used by the concrete witnesses below. -/
def quizW : Quiz :=
  { id := "quiz1", title := "Arithmetic", topic := "arithmetic",
    questions := [questionW] }

/-- A fixed sample per-question result used by the concrete witnesses
below. -/
def resultEntryW : QuestionResult :=
  { question_id := "q1", user_answer := "B", is_correct := true,
    correct_answer := "B", explanation := "definition of addition" }

/-- A fixed sample submission result used by the concrete witnesses
below. -/
def resultW : SubmissionResult :=
  { results := [resultEntryW], correct_count := 1, total_questions := 1,
    percentage := 100 }

/-- Witness for C1: after answering the single question of the sample
quiz, the submit control is enabled and the answers map covers the
question. -/
theorem submit_request_covers_every_question_witness :
    (jsLookup (step quizW false (initState false none)
      (.select "B")).answers questionW.id).isSome = true := by
  have h := submit_request_covers_every_question quizW false none
    (step quizW false (initState false none) (.select "B"))
    (Reachable.step _ (.select "B") Reachable.init) (by decide)
  exact h questionW (by decide)

/-- C10: the current-question index of every reachable panel state of a
quiz with at least one question stays within `0 ≤ i ≤ n - 1`, and the
reset on quiz change puts it back to 0. -/
theorem currentQuestion_within_bounds (quiz : Quiz) (reviewMode : Bool)
    (rr : Option SubmissionResult) (s : PanelState)
    (h : Reachable quiz reviewMode rr s)
    (hn : 1 ≤ quiz.questions.length) :
    s.currentQuestion ≤ quiz.questions.length - 1 ∧
    (initState reviewMode rr).currentQuestion = 0 := by
  have hinit : (initState reviewMode rr).currentQuestion = 0 := by
    cases reviewMode <;> cases rr <;> rfl
  refine ⟨?_, hinit⟩
  have hlt : s.currentQuestion < quiz.questions.length := by
    clear hinit
    induction h with
    | init => cases reviewMode <;> cases rr <;> simpa [initState]
    | step s e _ ih =>
      cases e with
      | select a =>
        rw [show step quiz reviewMode s (.select a) =
          handleSelectAnswer quiz s a from rfl,
          handleSelectAnswer_currentQuestion]
        exact ih
      | prev =>
        show (handlePrev s).currentQuestion < quiz.questions.length
        unfold handlePrev
        split
        · exact Nat.lt_of_le_of_lt (Nat.sub_le _ _) ih
        · exact ih
      | next =>
        show (handleNext quiz s).currentQuestion < quiz.questions.length
        unfold handleNext
        split
        · next hcond =>
            show s.currentQuestion + 1 < quiz.questions.length
            omega
        · exact ih
      | goto i =>
        show (gotoQuestion quiz s i).currentQuestion < quiz.questions.length
        unfold gotoQuestion
        split
        · next hcond => exact hcond
        · exact ih
      | hint r =>
        rw [show step quiz reviewMode s (.hint r) = handleHint quiz s r
          from rfl, handleHint_currentQuestion]
        exact ih
      | submit r =>
        rw [show step quiz reviewMode s (.submit r) =
          handleSubmit quiz reviewMode s r from rfl,
          handleSubmit_currentQuestion]
        exact ih
  omega

/-- Witness for C10: a next-click on the sample quiz keeps the index at
the last question. -/
theorem currentQuestion_within_bounds_witness :
    (step quizW false (initState false none) .next).currentQuestion ≤
      quizW.questions.length - 1 := by
  have h := currentQuestion_within_bounds quizW false none
    (step quizW false (initState false none) .next)
    (Reachable.step _ .next Reachable.init) (by decide)
  exact h.1

/-- Once a submission result is recorded, a further step never changes the
results field. -/
theorem results_step_preserved (quiz : Quiz) (reviewMode : Bool)
    (s : PanelState) (e : PEvent) (r : SubmissionResult)
    (hres : s.results = some r) :
    (step quiz reviewMode s e).results = some r := by
  cases e with
  | select a =>
    rw [show step quiz reviewMode s (.select a) =
      handleSelectAnswer quiz s a from rfl, handleSelectAnswer_results]
    exact hres
  | prev =>
    rw [show step quiz reviewMode s .prev = handlePrev s from rfl,
      handlePrev_results]
    exact hres
  | next =>
    rw [show step quiz reviewMode s .next = handleNext quiz s from rfl,
      handleNext_results]
    exact hres
  | goto i =>
    rw [show step quiz reviewMode s (.goto i) = gotoQuestion quiz s i from
      rfl, gotoQuestion_results]
    exact hres
  | hint r2 =>
    rw [show step quiz reviewMode s (.hint r2) = handleHint quiz s r2 from
      rfl, handleHint_results]
    exact hres
  | submit r2 =>
    show (handleSubmit quiz reviewMode s r2).results = some r
    simp [handleSubmit, submitEnabled, hres]

/-- Once a submission result is recorded, a further step never changes the
answers object. -/
theorem answers_step_frozen (quiz : Quiz) (reviewMode : Bool)
    (s : PanelState) (e : PEvent) (r : SubmissionResult)
    (hres : s.results = some r) :
    (step quiz reviewMode s e).answers = s.answers := by
  cases e with
  | select a =>
    show (handleSelectAnswer quiz s a).answers = s.answers
    simp [handleSelectAnswer, hres]
  | prev => exact handlePrev_answers s
  | next => exact handleNext_answers quiz s
  | goto i => exact gotoQuestion_answers quiz s i
  | hint r2 => exact handleHint_answers quiz s r2
  | submit r2 => exact handleSubmit_answers quiz reviewMode s r2

theorem run_answers_frozen (quiz : Quiz) (reviewMode : Bool) :
    ∀ (events : List PEvent) (s : PanelState) (r : SubmissionResult),
      s.results = some r →
      (run quiz reviewMode s events).answers = s.answers ∧
      (run quiz reviewMode s events).results = some r
  | [], s, r, h => ⟨rfl, h⟩
  | e :: evs, s, r, h => by
    have h1 := results_step_preserved quiz reviewMode s e r h
    have h2 := answers_step_frozen quiz reviewMode s e r h
    have ih := run_answers_frozen quiz reviewMode evs
      (step quiz reviewMode s e) r h1
    have hrun : run quiz reviewMode s (e :: evs) =
        run quiz reviewMode (step quiz reviewMode s e) evs := rfl
    rw [hrun]
    exact ⟨ih.1.trans h2, ih.2⟩

/-- C9: once a submission result is recorded, `handleSelectAnswer` returns
without writing, the option buttons and the short-answer textarea are
disabled, and every subsequent sequence of user interactions leaves the
answers state unchanged. -/
theorem answers_frozen_after_submission (quiz : Quiz) (reviewMode : Bool)
    (s : PanelState) (r : SubmissionResult) (hres : s.results = some r) :
    (∀ a, handleSelectAnswer quiz s a = s) ∧
    optionDisabled s = true ∧ textareaDisabled s = true ∧
    ∀ events, (run quiz reviewMode s events).answers = s.answers := by
  refine ⟨?_, ?_, ?_, ?_⟩
  · intro a
    simp [handleSelectAnswer, hres]
  · simp [optionDisabled, hres]
  · simp [textareaDisabled, hres]
  · intro events
    exact (run_answers_frozen quiz reviewMode events s r hres).1

/-- Witness for C9: in a graded sample state, a select interaction leaves
the answers unchanged and the controls are disabled. -/
theorem answers_frozen_after_submission_witness :
    optionDisabled (initState true (some resultW)) = true ∧
    (run quizW true (initState true (some resultW))
      [.select "A"]).answers = (initState true (some resultW)).answers := by
  have h := answers_frozen_after_submission quizW true
    (initState true (some resultW)) resultW rfl
  exact ⟨h.2.1, h.2.2.2 [.select "A"]⟩

/-- Characterization of the effect of `handleHint` on the hints object:
either the hints are unchanged, or a truthy response for the uncached
current question is inserted. -/
theorem handleHint_hints_eq (quiz : Quiz) (s : PanelState)
    (resp : Option String) :
    (handleHint quiz s resp).hints = s.hints ∨
    ∃ q h2, quiz.questions[s.currentQuestion]? = some q ∧
      jsTruthy (jsLookup s.hints q.id) = false ∧ resp = some h2 ∧
      h2 ≠ "" ∧
      (handleHint quiz s resp).hints = jsInsert s.hints q.id h2 := by
  unfold handleHint
  split
  · exact Or.inl rfl
  · next q hq =>
    split
    · exact Or.inl rfl
    · next htr =>
      split
      · next h2 =>
        split
        · next hne =>
          refine Or.inr ⟨q, h2, hq, ?_, rfl, hne, rfl⟩
          simpa using htr
        · exact Or.inl rfl
      · exact Or.inl rfl

/-- A cached hint entry survives any single step, given well-formed
hints. -/
theorem hints_stable_step (quiz : Quiz) (reviewMode : Bool)
    (s : PanelState) (e : PEvent) (k hText : String)
    (hwf : hintsWF s.hints) (hk : jsLookup s.hints k = some hText) :
    jsLookup (step quiz reviewMode s e).hints k = some hText := by
  cases e with
  | select a =>
    rw [show step quiz reviewMode s (.select a) =
      handleSelectAnswer quiz s a from rfl, handleSelectAnswer_hints]
    exact hk
  | prev =>
    rw [show step quiz reviewMode s .prev = handlePrev s from rfl,
      handlePrev_hints]
    exact hk
  | next =>
    rw [show step quiz reviewMode s .next = handleNext quiz s from rfl,
      handleNext_hints]
    exact hk
  | goto i =>
    rw [show step quiz reviewMode s (.goto i) = gotoQuestion quiz s i from
      rfl, gotoQuestion_hints]
    exact hk
  | submit r =>
    rw [show step quiz reviewMode s (.submit r) =
      handleSubmit quiz reviewMode s r from rfl, handleSubmit_hints]
    exact hk
  | hint r =>
    show jsLookup (handleHint quiz s r).hints k = some hText
    rcases handleHint_hints_eq quiz s r with hsame | ⟨q, h2, _, htr, _, _, hins⟩
    · rw [hsame]
      exact hk
    · have hkq : k ≠ q.id := by
        intro hkq
        rw [← hkq, hk] at htr
        have hne := hwf (k, hText) (mem_of_jsLookup_eq_some hk)
        simp [jsTruthy, hne] at htr
      rw [hins, jsLookup_jsInsert_ne _ _ _ _ hkq]
      exact hk

theorem hints_stable_run (quiz : Quiz) (reviewMode : Bool)
    (rr : Option SubmissionResult) :
    ∀ (events : List PEvent) (s : PanelState),
      Reachable quiz reviewMode rr s →
      ∀ k hText, jsLookup s.hints k = some hText →
        jsLookup (run quiz reviewMode s events).hints k = some hText
  | [], _, _, _, _, hk => hk
  | e :: evs, s, hreach, k, hText, hk => by
    have hwf := reachable_hintsWF quiz reviewMode rr s hreach
    have h1 := hints_stable_step quiz reviewMode s e k hText hwf hk
    have hrun : run quiz reviewMode s (e :: evs) =
        run quiz reviewMode (step quiz reviewMode s e) evs := rfl
    rw [hrun]
    exact hints_stable_run quiz reviewMode rr evs
      (step quiz reviewMode s e) (Reachable.step s e hreach) k hText h1

/-- C3: in every reachable panel state, when a hint for the current
question is already cached, `handleHint` issues no new request and leaves
the state unchanged; the first successful response for an uncached
question is cached; and a cached hint entry keeps its exact value across
every later sequence of events of the session. -/
theorem hint_cached_and_stable (quiz : Quiz) (reviewMode : Bool)
    (rr : Option SubmissionResult) (s : PanelState)
    (h : Reachable quiz reviewMode rr s) :
    (∀ q, quiz.questions[s.currentQuestion]? = some q →
      ∀ hText, jsLookup s.hints q.id = some hText →
        hintRequestIssued quiz s = false ∧
        ∀ resp, handleHint quiz s resp = s) ∧
    (∀ q, quiz.questions[s.currentQuestion]? = some q →
      jsLookup s.hints q.id = none →
      ∀ hText, hText ≠ "" →
        jsLookup (handleHint quiz s (some hText)).hints q.id =
          some hText) ∧
    (∀ k hText, jsLookup s.hints k = some hText →
      ∀ events, jsLookup (run quiz reviewMode s events).hints k =
        some hText) := by
  have hwf := reachable_hintsWF quiz reviewMode rr s h
  refine ⟨?_, ?_, ?_⟩
  · intro q hq hText hk
    have hne : hText ≠ "" := hwf (q.id, hText) (mem_of_jsLookup_eq_some hk)
    have htr : jsTruthy (jsLookup s.hints q.id) = true := by
      rw [hk]
      simp [jsTruthy, hne]
    constructor
    · simp [hintRequestIssued, hq, htr]
    · intro resp
      simp [handleHint, hq, htr]
  · intro q hq hnone hText hne
    simp only [handleHint, hq, hnone]
    simp [jsTruthy, hne, jsLookup_jsInsert_self]
  · intro k hText hk events
    exact hints_stable_run quiz reviewMode rr events s h k hText hk

/-- Witness for C3: after caching a hint for the sample question, no new
request is issued and the cached value survives a later event. -/
theorem hint_cached_and_stable_witness :
    hintRequestIssued quizW
      (step quizW false (initState false none)
        (.hint (some "recall addition"))) = false ∧
    jsLookup (run quizW false
      (step quizW false (initState false none)
        (.hint (some "recall addition"))) [.hint (some "other")]).hints
      questionW.id = some "recall addition" := by
  have h := hint_cached_and_stable quizW false none
    (step quizW false (initState false none)
      (.hint (some "recall addition")))
    (Reachable.step _ (.hint (some "recall addition")) Reachable.init)
  refine ⟨(h.1 questionW (by decide) "recall addition" (by decide)).1, ?_⟩
  exact h.2.2 questionW.id "recall addition" (by decide)
    [.hint (some "other")]

/-- C4: before a submission result exists, `getQuestionResult` returns
null for every question and no correct answer or explanation is rendered;
and the rendered correct answer and explanation are read exclusively from
the submission result — they depend only on the question ids and
multiple-choice shape of the quiz, never on any other content of the quiz
question objects (which carry no answer fields at all). -/
theorem correct_answer_only_from_results :
    (∀ (s : PanelState) (qId : String), s.results = none →
      getQuestionResult s qId = none) ∧
    (∀ (quiz : Quiz) (s : PanelState), s.results = none →
      renderedCorrectAnswer quiz s = none ∧
      renderedExplanation quiz s = none) ∧
    (∀ (quiz1 quiz2 : Quiz) (s : PanelState),
      quiz1.questions.map (fun q => (q.id, decide (0 < q.options.length))) =
        quiz2.questions.map
          (fun q => (q.id, decide (0 < q.options.length))) →
      renderedCorrectAnswer quiz1 s = renderedCorrectAnswer quiz2 s ∧
      renderedExplanation quiz1 s = renderedExplanation quiz2 s) := by
  have h1 : ∀ (s : PanelState) (qId : String), s.results = none →
      getQuestionResult s qId = none := by
    intro s qId h
    simp [getQuestionResult, h]
  refine ⟨h1, ?_, ?_⟩
  · intro quiz s h
    constructor
    · unfold renderedCorrectAnswer
      cases hq : quiz.questions[s.currentQuestion]? with
      | none => rfl
      | some q => simp [h1 s q.id h]
    · unfold renderedExplanation
      cases hq : quiz.questions[s.currentQuestion]? with
      | none => rfl
      | some q => simp [h1 s q.id h]
  · intro quiz1 quiz2 s hmap
    have hq : (quiz1.questions[s.currentQuestion]?).map
        (fun q => (q.id, decide (0 < q.options.length))) =
        (quiz2.questions[s.currentQuestion]?).map
          (fun q => (q.id, decide (0 < q.options.length))) := by
      rw [← List.getElem?_map, ← List.getElem?_map, hmap]
    cases hq1 : quiz1.questions[s.currentQuestion]? with
    | none =>
      rw [hq1] at hq
      cases hq2 : quiz2.questions[s.currentQuestion]? with
      | some q2 => rw [hq2] at hq; simp at hq
      | none =>
        constructor
        · unfold renderedCorrectAnswer
          rw [hq1, hq2]
        · unfold renderedExplanation
          rw [hq1, hq2]
    | some q1 =>
      rw [hq1] at hq
      cases hq2 : quiz2.questions[s.currentQuestion]? with
      | none => rw [hq2] at hq; simp at hq
      | some q2 =>
        rw [hq2] at hq
        have hpair : (q1.id, decide (0 < q1.options.length)) =
            (q2.id, decide (0 < q2.options.length)) := by
          have := hq
          simp only [Option.map_some'] at this
          exact Option.some.inj this
        have hid : q1.id = q2.id := congrArg Prod.fst hpair
        have hopt : decide (0 < q1.options.length) =
            decide (0 < q2.options.length) := congrArg Prod.snd hpair
        have hoptp : (0 < q1.options.length) ↔ (0 < q2.options.length) :=
          decide_eq_decide.mp hopt
        constructor
        · unfold renderedCorrectAnswer
          rw [hq1, hq2]
          simp only [hid, hoptp]
        · unfold renderedExplanation
          rw [hq1, hq2]
          simp only [hid]

/-- Witness for C4: in the ungraded sample initial state, no per-question
result exists and nothing is revealed for the sample quiz. -/
theorem correct_answer_only_from_results_witness :
    getQuestionResult (initState false none) questionW.id = none ∧
    renderedCorrectAnswer quizW (initState false none) = none := by
  refine ⟨correct_answer_only_from_results.1 (initState false none)
    questionW.id rfl, ?_⟩
  exact (correct_answer_only_from_results.2.1 quizW
    (initState false none) rfl).1

/-- Upper bound of the rounded percentage: at most 100 when the correct
count does not exceed the question count. -/
theorem roundPct_le_100 {c n : Nat} (hc : c ≤ n) (hn : 0 < n) :
    roundPct c n ≤ 100 := by
  unfold roundPct
  have h1 : 200 * c + n ≤ 201 * n := by omega
  calc (200 * c + n) / (2 * n) ≤ (201 * n) / (2 * n) :=
        Nat.div_le_div_right h1
    _ = 100 := by rw [Nat.mul_div_mul_right _ _ hn]

/-- C7: for every graded submission, the percentage is the rounded value
of 100 times the correct count over the total question count, hence it is
at most 100 (and at least 0, being a natural number) and the correct count
never exceeds the total; grading fails with the invalid-submission error
when the quiz has zero questions or the answers map references a question
id not in the quiz. -/
theorem grade_percentage_and_errors :
    (∀ (sem : String → String → Bool) (quiz : ServerQuiz)
        (answers : List (String × String)) (t : Nat)
        (r : SubmissionResult),
      grade sem quiz answers t = .ok r →
        r.percentage = roundPct r.correct_count r.total_questions ∧
        r.percentage ≤ 100 ∧ r.correct_count ≤ r.total_questions) ∧
    (∀ (sem : String → String → Bool) (quiz : ServerQuiz)
        (answers : List (String × String)) (t : Nat),
      quiz.questions.length = 0 →
        grade sem quiz answers t = .error .invalidSubmission) ∧
    (∀ (sem : String → String → Bool) (quiz : ServerQuiz)
        (answers : List (String × String)) (t : Nat) (k v : String),
      (k, v) ∈ answers → (∀ q ∈ quiz.questions, q.id ≠ k) →
        grade sem quiz answers t = .error .invalidSubmission) := by
  refine ⟨?_, ?_, ?_⟩
  · intro sem quiz answers t r h
    rw [grade] at h
    by_cases h0 : quiz.questions.length = 0
    · rw [if_pos h0] at h
      exact absurd h (by simp)
    · rw [if_neg h0] at h
      by_cases h2 : answers.any
          (fun p => !(quiz.questions.any (fun q => q.id = p.1))) = true
      · rw [if_pos h2] at h
        exact absurd h (by simp)
      · rw [if_neg h2] at h
        have hr := Except.ok.inj h
        have hcc : (gradeResults sem quiz answers).countP
            (fun r => r.is_correct) ≤ quiz.questions.length := by
          calc (gradeResults sem quiz answers).countP (fun r => r.is_correct)
              ≤ (gradeResults sem quiz answers).length :=
                List.countP_le_length _
            _ = quiz.questions.length := by
                rw [gradeResults, List.length_map]
        rw [← hr]
        refine ⟨rfl, ?_, hcc⟩
        exact roundPct_le_100 hcc (Nat.pos_of_ne_zero h0)
  · intro sem quiz answers t h0
    rw [grade, if_pos h0]
  · intro sem quiz answers t k v hkv hids
    rw [grade]
    by_cases h0 : quiz.questions.length = 0
    · rw [if_pos h0]
    · have hany : answers.any
          (fun p => !(quiz.questions.any (fun q => q.id = p.1))) = true := by
        rw [List.any_eq_true]
        refine ⟨(k, v), hkv, ?_⟩
        simp only [Bool.not_eq_true']
        rw [List.any_eq_false]
        intro q hq
        simpa using hids q hq
      rw [if_neg h0, if_pos hany]

/-- A fixed sample server-side question used by the grading witness. -/
def serverQ1W : ServerQuestion :=
  { id := "q1", qtype := .multiple_choice, prompt := "What is 2 + 2?",
    options := ["A) 3", "B) 4"], correct_answer := "B",
    explanation := "e1" }

/-- A second fixed sample server-side question used by the grading
witness. -/
def serverQ2W : ServerQuestion :=
  { id := "q2", qtype := .multiple_choice, prompt := "What is 3 + 3?",
    options := ["A) 5", "B) 6"], correct_answer := "B",
    explanation := "e2" }

/-- A fixed sample server-side quiz used by the grading witness. -/
def serverQuizW : ServerQuiz :=
  { id := "quiz1", questions := [serverQ1W, serverQ2W] }

/-- The first per-question outcome of the sample graded submission. -/
def gradeEntry1W : QuestionResult :=
  { question_id := "q1", user_answer := "B", is_correct := true,
    correct_answer := "B", explanation := "e1" }

/-- The second per-question outcome of the sample graded submission. -/
def gradeEntry2W : QuestionResult :=
  { question_id := "q2", user_answer := "A", is_correct := false,
    correct_answer := "B", explanation := "e2" }

/-- The sample graded submission: one of two answers correct, 50
percent. -/
def gradeResW : SubmissionResult :=
  { results := [gradeEntry1W, gradeEntry2W], correct_count := 1,
    total_questions := 2, percentage := 50 }

/-- Recovers the success equation of an `Except` value from its
option view, which carries a decidable equality. -/
theorem except_eq_ok_of_toOption {e : Except GradeError SubmissionResult}
    {v : SubmissionResult} (h : e.toOption = some v) : e = .ok v := by
  cases e with
  | ok a =>
    simp only [Except.toOption, Option.some.injEq] at h
    rw [h]
  | error x => simp [Except.toOption] at h

/-- Witness for C7: the spec scenario — two multiple-choice questions
with correct answers B and B, submitted answers B and A — grades to one
correct and 50 percent, within bounds. -/
theorem grade_percentage_and_errors_witness :
    gradeResW.percentage = roundPct gradeResW.correct_count
      gradeResW.total_questions ∧
    gradeResW.percentage ≤ 100 ∧
    gradeResW.correct_count ≤ gradeResW.total_questions :=
  grade_percentage_and_errors.1 (fun _ _ => false) serverQuizW
    [("q1", "B"), ("q2", "A")] 10 gradeResW
    (except_eq_ok_of_toOption (by decide))

/-! ## Lemmas about the latex scanner -/

/-- Length accounting of the delimiter scanner: a successful scan splits
the input into the prefix, the two delimiter characters, and the rest. -/
theorem scanClose_length (c : Char) :
    ∀ (s pre post : List Char), scanClose c s = some (pre, post) →
      s.length = pre.length + 2 + post.length
  | [], pre, post, h => by simp [scanClose] at h
  | [a], pre, post, h => by simp [scanClose] at h
  | a :: b :: rest, pre, post, h => by
    rw [scanClose] at h
    by_cases hab : a = '\\' ∧ b = c
    · rw [if_pos hab] at h
      have h1 : pre = [] := (Prod.mk.inj (Option.some.inj h)).1.symm
      have h2 : post = rest := (Prod.mk.inj (Option.some.inj h)).2.symm
      subst h1
      subst h2
      simp
      omega
    · rw [if_neg hab] at h
      cases hs : scanClose c (b :: rest) with
      | none => rw [hs] at h; cases h
      | some pr =>
        obtain ⟨pre2, post2⟩ := pr
        rw [hs] at h
        have h1 : pre = a :: pre2 := (Prod.mk.inj (Option.some.inj h)).1.symm
        have h2 : post = post2 := (Prod.mk.inj (Option.some.inj h)).2.symm
        have ih := scanClose_length c (b :: rest) pre2 post2 hs
        rw [h1, h2]
        simp at ih ⊢
        omega

/-- A character list without a backslash contains no delimiter. -/
theorem scanClose_eq_none (c : Char) :
    ∀ (l : List Char), '\\' ∉ l → scanClose c l = none
  | [], _ => rfl
  | [_], _ => rfl
  | a :: b :: rest, h => by
    have ha : ¬ a = '\\' := fun hh => h (hh ▸ List.mem_cons_self a _)
    have h2 : '\\' ∉ b :: rest := fun hh => h (List.mem_cons_of_mem _ hh)
    rw [scanClose, if_neg (fun hand => ha hand.1),
      scanClose_eq_none c (b :: rest) h2]

/-- Fuel irrelevance of the span replacement: any fuel of at least the
input length computes the same result, so the fuel choice in
`convertSpans` is immaterial. -/
theorem convertSpansFuel_congr (o c : Char) (wrap : List Char) :
    ∀ (f1 f2 : Nat) (s : List Char), s.length ≤ f1 → s.length ≤ f2 →
      convertSpansFuel o c wrap f1 s = convertSpansFuel o c wrap f2 s := by
  intro f1
  induction f1 with
  | zero =>
    intro f2 s h1 _
    have hs : s = [] := List.eq_nil_of_length_eq_zero (Nat.le_zero.mp h1)
    subst hs
    cases f2 with
    | zero => rfl
    | succ j => simp [convertSpansFuel, scanClose]
  | succ k ih =>
    intro f2 s h1 h2
    cases f2 with
    | zero =>
      have hs : s = [] := List.eq_nil_of_length_eq_zero (Nat.le_zero.mp h2)
      subst hs
      simp [convertSpansFuel, scanClose]
    | succ j =>
      cases h3 : scanClose o s with
      | none => simp [convertSpansFuel, h3]
      | some pr1 =>
        obtain ⟨pre, afterOpen⟩ := pr1
        cases h4 : scanClose c afterOpen with
        | none => simp [convertSpansFuel, h3, h4]
        | some pr2 =>
          obtain ⟨inner, post⟩ := pr2
          have l1 := scanClose_length o s pre afterOpen h3
          have l2 := scanClose_length c afterOpen inner post h4
          have hpk : post.length ≤ k := by omega
          have hpj : post.length ≤ j := by omega
          simp only [convertSpansFuel, h3, h4]
          rw [ih j post hpk hpj]

/-- A character list without a backslash passes through the span
replacement unchanged. -/
theorem convertSpans_id_of_no_backslash (o c : Char) (wrap l : List Char)
    (h : '\\' ∉ l) : convertSpans o c wrap l = l := by
  unfold convertSpans
  cases hl : l.length with
  | zero => rfl
  | succ n => rw [convertSpansFuel, scanClose_eq_none o l h]

/-- C8: `preprocessLatex` is total and returns non-(non-empty-string)
arguments unchanged; on a non-empty string it first replaces every
non-greedy backslash-bracket display span with a double-dollar span and
then every non-greedy backslash-parenthesis inline span with a dollar
span, in that order; text without backslashes passes through unchanged,
as the concrete final conjunct also shows. -/
theorem preprocessLatex_spec :
    preprocessLatex .jsNull = .jsNull ∧
    preprocessLatex .jsUndefined = .jsUndefined ∧
    preprocessLatex .jsOther = .jsOther ∧
    preprocessLatex (.jsStr "") = .jsStr "" ∧
    (∀ s : String, s ≠ "" → preprocessLatex (.jsStr s) =
      .jsStr (String.mk (convertSpans '(' ')' ['$']
        (convertSpans '[' ']' ['$', '$'] s.data)))) ∧
    (∀ (o c : Char) (wrap l : List Char), '\\' ∉ l →
      convertSpans o c wrap l = l) ∧
    preprocessLatex (.jsStr "\\[ e \\] and \\( y \\)") =
      .jsStr "$$ e $$ and $ y $" := by
  refine ⟨rfl, rfl, rfl, rfl, ?_, ?_, by decide⟩
  · intro s hs
    simp [preprocessLatex, hs]
  · intro o c wrap l h
    exact convertSpans_id_of_no_backslash o c wrap l h

/-- Witness for C8: the conditional conjuncts of the specification theorem
applied at concrete inputs. -/
theorem preprocessLatex_spec_witness :
    preprocessLatex (.jsStr "x") =
      .jsStr (String.mk (convertSpans '(' ')' ['$']
        (convertSpans '[' ']' ['$', '$'] "x".data))) ∧
    convertSpans '(' ')' ['$'] ['a'] = ['a'] :=
  ⟨preprocessLatex_spec.2.2.2.2.1 "x" (by decide),
   preprocessLatex_spec.2.2.2.2.2.1 '(' ')' ['$'] ['a'] (by decide)⟩

/-! ## Request-body theorems -/

/-- C2: the context-based `generateQuiz` of `src/unnamed/part_003`
computes the synthesized description (last ten message contents joined by
spaces and cut to 2000 characters) into a local variable, but the request
it sends carries the constant topic string "conversation context" instead
of that description — at the sample conversation the synthesized
description differs from what is sent, so the synthesized description is
not used for collection. -/
theorem generateQuiz_discards_synthesized_context :
    synthesizeContext ["Eigenvalues and eigenvectors"] =
      "Eigenvalues and eigenvectors" ∧
    jsLookup (generateQuizBodyCtx "s1" none "medium" 5) "topic" =
      some (.str "conversation context") ∧
    ¬ jsLookup (generateQuizBodyCtx "s1" none "medium" 5) "topic" =
      some (.str (synthesizeContext ["Eigenvalues and eigenvectors"])) := by
  refine ⟨rfl, rfl, ?_⟩
  intro h
  rw [show jsLookup (generateQuizBodyCtx "s1" none "medium" 5) "topic" =
    some (.str "conversation context") from rfl] at h
  have h2 := Option.some.inj h
  have h3 : "conversation context" =
      synthesizeContext ["Eigenvalues and eigenvectors"] := by
    injection h2
  exact absurd h3 (by decide)

/-- C5 counterexample: the `generateQuiz` of `src/frontend/src/App.jsx`
sends a body of exactly four fields, with no `context_based` field at
all, refuting the claim that every quiz-generation request body carries
`context_based`. -/
theorem generateQuizBodyApp_lacks_context_based :
    (generateQuizBodyApp "s1" "Calculus" "medium" 5).map Prod.fst =
      ["session_id", "topic", "difficulty", "num_questions"] ∧
    jsLookup (generateQuizBodyApp "s1" "Calculus" "medium" 5)
      "context_based" = none := ⟨rfl, rfl⟩

/-- C5 amended: the context-aware client (`src/unnamed/part_003`) sends
exactly the five fields `session_id`, `topic`, `difficulty`,
`num_questions`, `context_based`, with `context_based` true exactly when
the topic argument is absent or empty; the plain client
(`src/frontend/src/App.jsx`) sends exactly the four fields without
`context_based`. -/
theorem generate_body_fields (sid : String) (topic : Option String)
    (diff topicStr : String) (n : Nat) :
    (generateQuizBodyCtx sid topic diff n).map Prod.fst =
      ["session_id", "topic", "difficulty", "num_questions",
        "context_based"] ∧
    jsLookup (generateQuizBodyCtx sid topic diff n) "context_based" =
      some (.bool (!jsTruthy topic)) ∧
    ((!jsTruthy topic) = true ↔ topic = none ∨ topic = some "") ∧
    (generateQuizBodyApp sid topicStr diff n).map Prod.fst =
      ["session_id", "topic", "difficulty", "num_questions"] := by
  refine ⟨rfl, rfl, ?_, rfl⟩
  cases topic with
  | none => simp [jsTruthy]
  | some t =>
    simp only [jsTruthy, Bool.not_eq_true', decide_eq_false_iff_not,
      ne_eq, not_not, Option.some.injEq]
    constructor
    · intro h
      exact Or.inr h
    · intro h
      rcases h with h | h
      · cases h
      · exact h

/-- C6: the `submitQuiz` body consists of exactly the fields `answers`
(the answers map) and `time_taken_seconds`; on a successful response the
parsed `SubmissionResult` (whose fields are `results`, `correct_count`,
`total_questions`, `percentage`) is returned unchanged to the caller, and
on any failure the call returns null so no result is recorded. -/
theorem submit_body_fields_and_outcome
    (answers : List (String × String)) (t : Nat) (d : SubmissionResult)
    (e : String) :
    (submitQuizBody answers t).map Prod.fst =
      ["answers", "time_taken_seconds"] ∧
    jsLookup (submitQuizBody answers t) "answers" =
      some (.obj (answers.map (fun p => (p.1, .str p.2)))) ∧
    jsLookup (submitQuizBody answers t) "time_taken_seconds" =
      some (.num t) ∧
    submitQuizOutcome (.ok d) = some d ∧
    submitQuizOutcome (.error e) = none :=
  ⟨rfl, rfl, rfl, rfl, rfl⟩

end RLTutor
